import Mathlib

/-!
# Verification of `neurodsp.sim.periodic` — bursty oscillation with cycle features

Shallow embedding of `src/neurodsp/sim/periodic.py` (functions
`sim_bursty_oscillation_features`, `_make_is_osc`, `_determine_cycle_properties`,
`_sim_cycles`) and proofs about it.

Modelling conventions:
* Python floats are modelled as rationals (`ℚ`); the claims under study are about
  control flow, list lengths, signs and integer conversions, none of which depend
  on binary floating-point rounding.
* `np.nan` markers (the `amp`/`rdsym` of a non-oscillating cycle, and the "unset"
  burst context) are modelled with `Option`: `none` stands for NaN.
* The process-wide random stream is modelled as explicit draw streams
  (`ℕ → ℚ`): one for `rand()` (uniform draws of `_make_is_osc`) and one for
  `randn()` (normal draws of `_determine_cycle_properties`), indexed in call order.
* Raising code paths are modelled with `Except`: each concrete Python exception
  site becomes an error constructor.
* The sample values of the signal are cosines of phases that are rational
  multiples of π.  Phases are tracked in units of π, and the transcendental map
  `x ↦ cos (π·x)` is abstracted as a parameter `cosPi : ℚ → ℚ`; every property
  proved here (lengths, errors, totality) holds for every `cosPi`.
* The `@normalize` decorator wrapping the entry point is outside the repository
  source; per the specification it is a pointwise rescaling of the output and
  does not change sample counts, so it is not modelled.
-/

namespace NeuroDSP

-- The library's rational arithmetic is sealed against unfolding; expose it so
-- `decide` can evaluate the embedded functions on concrete inputs.
unseal Rat.mul Rat.add Rat.sub Rat.inv

/-- Python `int(·)` applied to a real value: truncation toward zero. -/
def pyInt (q : ℚ) : ℤ := if 0 ≤ q then ⌊q⌋ else ⌈q⌉

/-- `np.round`: round to nearest integer, ties to the even integer. -/
def npRound (q : ℚ) : ℤ :=
  if q - ⌊q⌋ = 1/2 then (if 2 ∣ ⌊q⌋ then ⌊q⌋ else ⌊q⌋ + 1) else round q

/-- `np.linspace a b n`: `n` evenly spaced points from `a` to `b` inclusive
(`[a]` for `n = 1`, `[]` for `n = 0`). -/
def linspace (a b : ℚ) (n : ℕ) : List ℚ :=
  if n = 0 then []
  else if n = 1 then [a]
  else (List.range n).map fun i : ℕ => a + (b - a) * (i : ℚ) / ((n - 1 : ℕ) : ℚ)

/-- The nine-field cycle-feature configuration (the `cycle_features_use` dict),
fields in the order the source dict lists them. -/
structure CycleFeatures where
  amp_mean : ℚ
  amp_burst_std : ℚ
  amp_std : ℚ
  period_mean : ℚ
  period_burst_std : ℚ
  period_std : ℚ
  rdsym_mean : ℚ
  rdsym_burst_std : ℚ
  rdsym_std : ℚ
deriving DecidableEq

/-- The burst-level means (`cur_burst` with non-NaN entries). -/
structure Burst where
  periodMean : ℚ
  ampMean : ℚ
  rdsymMean : ℚ
deriving DecidableEq

/-- One row of the per-cycle property arrays built by
`_determine_cycle_properties`, together with its `is_cycle` flag.
`amp`/`rdsym` are `none` exactly when the source stores `np.nan`. -/
structure CycleProps where
  isCycle : Bool
  period : ℤ
  amp : Option ℚ
  rdsym : Option ℚ
deriving DecidableEq

/-- Errors of `_determine_cycle_properties`:
`uninitBurst` is the `NameError` from reading `cur_burst` before any assignment;
`invalidFeatures` is the `ValueError` raised after `n_tries` failed attempts,
carrying the reported feature names. -/
inductive FeatureError where
  | uninitBurst : FeatureError
  | invalidFeatures : List String → FeatureError
deriving DecidableEq

/-- `is_oscillating[ii] = rand_num > leave_burst` / `rand_num < enter_burst`,
depending on the previous flag. -/
def nextFlag (enterBurst leaveBurst u : ℚ) (prev : Bool) : Bool :=
  if prev then decide (leaveBurst < u) else decide (u < enterBurst)

/-- The loop of `_make_is_osc` from slot `i+1` on, given the previous flag;
`n` slots remain, `i` indexes the uniform draw consumed by the next slot. -/
def makeIsOscFrom (enterBurst leaveBurst : ℚ) (draws : ℕ → ℚ) :
    ℕ → ℕ → Bool → List Bool
  | 0, _, _ => []
  | n + 1, i, prev =>
      let f := nextFlag enterBurst leaveBurst (draws i) prev
      f :: makeIsOscFrom enterBurst leaveBurst draws n (i + 1) f

/-- `_make_is_osc`: first flag forced `False`, later flags from the two-state
chain.  `none` models the `IndexError` of `is_oscillating[0] = False` when
`n_cycles = 0`. -/
def makeIsOsc (nCycles : ℕ) (enterBurst leaveBurst : ℚ) (draws : ℕ → ℚ) :
    Option (List Bool) :=
  match nCycles with
  | 0 => none
  | n + 1 => some (false :: makeIsOscFrom enterBurst leaveBurst draws n 0 false)

/-- One attempt of the retry loop: draw `period`, `amp`, `rdsym` from the current
burst means (three consecutive `randn()` draws starting at index `k`). -/
def drawTriple (cf : CycleFeatures) (b : Burst) (draws : ℕ → ℚ) (k : ℕ) :
    ℚ × ℚ × ℚ :=
  (b.periodMean + draws k * cf.period_std,
   b.ampMean + draws (k + 1) * cf.amp_std,
   b.rdsymMean + draws (k + 2) * cf.rdsym_std)

/-- The acceptance test `period > 0 and amp > 0 and rdsym > 0 and rdsym < 1`. -/
def validTriple (v : ℚ × ℚ × ℚ) : Bool :=
  decide (0 < v.1) && decide (0 < v.2.1) && decide (0 < v.2.2) && decide (v.2.2 < 1)

/-- The `for n_try in range(n_tries)` loop, with `fuel + 1` attempts in total.
Returns the last drawn triple, whether it was accepted, and the next draw index.
(The source's `n_tries = 0` degenerate case, where the loop body never runs and
the error branch reads stale variables, is outside this model; every statement
below about the sampler assumes `n_tries ≥ 1`.) -/
def tryLoop (cf : CycleFeatures) (b : Burst) (draws : ℕ → ℚ) :
    ℕ → ℕ → (ℚ × ℚ × ℚ) × Bool × ℕ
  | k, 0 =>
      let v := drawTriple cf b draws k
      (v, validTriple v, k + 3)
  | k, fuel + 1 =>
      let v := drawTriple cf b draws k
      if validTriple v then (v, true, k + 3) else tryLoop cf b draws (k + 3) fuel

/-- The reported invalid-feature names, from the final attempt `v`:
`[label for label in ['period', 'amp', 'rdsym'] if eval(label) < 0]`,
then `+ ['rdsym'] if rdsym > 1`.  Note both tests are strict. -/
def invalidList (v : ℚ × ℚ × ℚ) : List String :=
  let base := (if v.1 < 0 then ["period"] else []) ++
              (if v.2.1 < 0 then ["amp"] else []) ++
              (if v.2.2 < 0 then ["rdsym"] else [])
  if 1 < v.2.2 then base ++ ["rdsym"] else base

/-- The burst means sampled when a new burst begins (`np.isnan(cur_burst['period_mean'])`):
three consecutive `randn()` draws starting at index `k`. -/
def freshBurst (cf : CycleFeatures) (draws : ℕ → ℚ) (k : ℕ) : Burst :=
  ⟨cf.period_mean + draws k * cf.period_burst_std,
   cf.amp_mean + draws (k + 1) * cf.amp_burst_std,
   cf.rdsym_mean + draws (k + 2) * cf.rdsym_burst_std⟩

/-- `_determine_cycle_properties`.  `k` is the next `randn()` index and `cb` the
state of the `cur_burst` variable: `none` = never assigned (reading it is a
`NameError`), `some none` = assigned the NaN dict, `some (some b)` = burst means
`b`.  A `false` slot stores `int(period)` with NaN `amp`/`rdsym` and resets the
burst context; a `true` slot samples burst means if the context is NaN, then
runs the retry loop.  (The source's `is_osc is False` identity test behaves as
a plain boolean test: `_make_is_osc` builds genuine Python bools, since
`rand()` returns a Python float and float comparisons yield Python bools.) -/
def determineCycleProperties (cf : CycleFeatures) (nTries : ℕ) (draws : ℕ → ℚ) :
    List Bool → ℕ → Option (Option Burst) → Except FeatureError (List CycleProps)
  | [], _, _ => .ok []
  | false :: rest, k, _ =>
      let period := cf.period_mean + draws k * cf.period_std
      (determineCycleProperties cf nTries draws rest (k + 1) (some none)).map
        fun l => ⟨false, pyInt period, none, none⟩ :: l
  | true :: rest, k, cb =>
      match cb with
      | none => .error .uninitBurst
      | some cbv =>
          let bk : Burst × ℕ :=
            match cbv with
            | none => (freshBurst cf draws k, k + 3)
            | some b => (b, k)
          let r := tryLoop cf bk.1 draws bk.2 (nTries - 1)
          if r.2.1 then
            (determineCycleProperties cf nTries draws rest r.2.2 (some (some bk.1))).map
              fun l => ⟨true, pyInt r.1.1, some r.1.2.1, some r.1.2.2⟩ :: l
          else
            .error (.invalidFeatures (invalidList r.1))

/-- One row of the cycle dataframe: the per-cycle properties plus the
`start_sample` column. -/
structure CycleRow where
  isCycle : Bool
  period : ℤ
  amp : Option ℚ
  rdsym : Option ℚ
  startSample : ℤ
deriving DecidableEq

instance : Inhabited CycleRow := ⟨⟨false, 0, none, none, 0⟩⟩

/-- Attach `start_sample` values: row `k` gets `acc` plus the sum of the periods
of rows before `k` (the source's `np.insert(df['period'].cumsum()[:-1], 0, 0)`,
which is defined for a nonempty table — the pipeline never builds an empty one). -/
def attachStarts (acc : ℤ) : List CycleProps → List CycleRow
  | [] => []
  | p :: rest => ⟨p.isCycle, p.period, p.amp, p.rdsym, acc⟩ :: attachStarts (acc + p.period) rest

/-- Errors of `_sim_cycles`: `negLen` is the `ValueError` from `np.zeros` /
`np.linspace` with a negative length, `emptyLast` the `IndexError` from `sig[-1]`
on an empty signal, `broadcast` the `ValueError` from assigning the rise segment
into a shorter signal, and `nanFeature` marks an oscillating row whose
`amp`/`rdsym` is NaN (which the sampler never emits). -/
inductive SimCycleError where
  | negLen : SimCycleError
  | emptyLast : SimCycleError
  | broadcast : SimCycleError
  | nanFeature : SimCycleError
deriving DecidableEq

/-- The loop state of `_sim_cycles`: the signal built so far and
`last_cycle_oscillating`. -/
structure SimState where
  sig : List ℚ
  lastOsc : Bool
deriving DecidableEq

/-- `np.zeros(p)`: `p` zero samples, `ValueError` when `p` is negative. -/
def zeroFill (p : ℤ) : Except SimCycleError (List ℚ) :=
  if p < 0 then .error .negLen else .ok (List.replicate p.toNat 0)

/-- The burst-exit block: `cos(linspace(0, π/2, int(p/4))) · last` followed by
`np.zeros(p - int(p/4))` (phases in units of π). -/
def decaySegment (cosPi : ℚ → ℚ) (p : ℤ) (last : ℚ) : Except SimCycleError (List ℚ) :=
  let m := pyInt ((p : ℚ) / 4)
  if m < 0 then .error .negLen
  else if p - m < 0 then .error .negLen
  else .ok ((linspace 0 (1/2) m.toNat).map (fun x => cosPi x * last) ++
            List.replicate (p - m).toNat 0)

/-- The burst-entry block: build `rise_t = cos(linspace(-π/2, 0, int(p/4))[1:]) · amp`
and, when non-empty, overwrite the last `len(rise_t)` samples of the signal with
it (`ValueError` when the signal is shorter than the rise segment). -/
def entryOverwrite (cosPi : ℚ → ℚ) (sig : List ℚ) (p : ℤ) (amp : ℚ) :
    Except SimCycleError (List ℚ) :=
  let m := pyInt ((p : ℚ) / 4)
  if m < 0 then .error .negLen
  else
    let riseT := ((linspace (-(1/2)) 0 m.toNat).drop 1).map fun x => cosPi x * amp
    if riseT.isEmpty then .ok sig
    else if sig.length < riseT.length then .error .broadcast
    else .ok (sig.take (sig.length - riseT.length) ++ riseT)

/-- The cycle body: `rise_samples = int(round(p · rdsym))`,
`decay_samples = p - rise_samples`,
`pha_t = linspace(0, π, decay+1)[1:] ++ linspace(-π, 0, rise+1)[1:]`,
`cycle_t = cos(pha_t)`.  Returns `decay_samples` along with the raw cycle. -/
def cycleBody (cosPi : ℚ → ℚ) (p : ℤ) (rdsym : ℚ) :
    Except SimCycleError (ℤ × List ℚ) :=
  let riseSamples := npRound ((p : ℚ) * rdsym)
  let decaySamples := p - riseSamples
  if decaySamples + 1 < 0 then .error .negLen
  else if riseSamples + 1 < 0 then .error .negLen
  else .ok (decaySamples,
    (((linspace 0 1 (decaySamples + 1).toNat).drop 1) ++
     ((linspace (-1) 0 (riseSamples + 1).toNat).drop 1)).map cosPi)

/-- Intra-burst continuity blending: scale/offset the decay portion so it
starts at the previous sample, scale the rise portion by `amp`. -/
def blendCycle (amp last : ℚ) (decaySamples : ℤ) (cycleT : List ℚ) : List ℚ :=
  let scaling := (amp + last) / 2
  let offset := (last - amp) / 2
  ((cycleT.take decaySamples.toNat).map fun x => x * scaling + offset) ++
  ((cycleT.drop decaySamples.toNat).map fun x => x * amp)

/-- One iteration of the row loop of `_sim_cycles`.  (The source's
`row['is_cycle'] is False` identity test behaves as a plain boolean test:
`iterrows` on the mixed-dtype frame yields object rows whose bool entries are
unboxed to Python bools.) -/
def simCycleStep (cosPi : ℚ → ℚ) (st : SimState) (r : CycleRow) :
    Except SimCycleError SimState :=
  if r.isCycle = false then
    if st.lastOsc then
      match st.sig.getLast? with
      | none => .error .emptyLast
      | some last => (decaySegment cosPi r.period last).map fun seg => ⟨st.sig ++ seg, false⟩
    else
      (zeroFill r.period).map fun seg => ⟨st.sig ++ seg, false⟩
  else
    match r.amp, r.rdsym with
    | some amp, some rdsym =>
        match (if st.lastOsc then .ok st.sig else entryOverwrite cosPi st.sig r.period amp :
            Except SimCycleError (List ℚ)) with
        | .error e => .error e
        | .ok sig1 =>
            match cycleBody cosPi r.period rdsym with
            | .error e => .error e
            | .ok (decaySamples, cycleT) =>
                if st.lastOsc then
                  match st.sig.getLast? with
                  | none => .error .emptyLast
                  | some last => .ok ⟨sig1 ++ blendCycle amp last decaySamples cycleT, true⟩
                else .ok ⟨sig1 ++ cycleT.map (fun x => x * amp), true⟩
    | _, _ => .error .nanFeature

/-- The row loop of `_sim_cycles` from a given state. -/
def simCyclesFrom (cosPi : ℚ → ℚ) : List CycleRow → SimState → Except SimCycleError (List ℚ)
  | [], st => .ok st.sig
  | r :: rest, st =>
      match simCycleStep cosPi st r with
      | .error e => .error e
      | .ok st2 => simCyclesFrom cosPi rest st2

/-- `_sim_cycles`: empty signal, `last_cycle_oscillating = False` initially. -/
def simCycles (cosPi : ℚ → ℚ) (rows : List CycleRow) : Except SimCycleError (List ℚ) :=
  simCyclesFrom cosPi rows ⟨[], false⟩

/-- The caller-supplied `cycle_features` dict: each key optionally overrides the
corresponding default. -/
structure FeatureOverrides where
  amp_mean : Option ℚ := none
  amp_burst_std : Option ℚ := none
  amp_std : Option ℚ := none
  period_mean : Option ℚ := none
  period_burst_std : Option ℚ := none
  period_std : Option ℚ := none
  rdsym_mean : Option ℚ := none
  rdsym_burst_std : Option ℚ := none
  rdsym_std : Option ℚ := none
deriving DecidableEq

/-- Build `cycle_features_use`: the defaults (`amp_mean = 1`, all stds `0`,
`period_mean = int(fs / freq)`, `rdsym_mean = rdsym`) overwritten per key. -/
def resolveFeatures (meanPeriodSamples : ℤ) (rdsym : ℚ) (ov : FeatureOverrides) :
    CycleFeatures where
  amp_mean := ov.amp_mean.getD 1
  amp_burst_std := ov.amp_burst_std.getD 0
  amp_std := ov.amp_std.getD 0
  period_mean := ov.period_mean.getD (meanPeriodSamples : ℚ)
  period_burst_std := ov.period_burst_std.getD 0
  period_std := ov.period_std.getD 0
  rdsym_mean := ov.rdsym_mean.getD rdsym
  rdsym_burst_std := ov.rdsym_burst_std.getD 0
  rdsym_std := ov.rdsym_std.getD 0

/-- Errors of the full pipeline. `zeroDivision` is the `ZeroDivisionError` from
`n_samples / mean_period_samples` when `int(fs / freq) = 0`; `indexError` is the
`IndexError` of `_make_is_osc` on zero slots. -/
inductive SimError where
  | zeroDivision : SimError
  | indexError : SimError
  | feature : FeatureError → SimError
  | cycles : SimCycleError → SimError
deriving DecidableEq

/-- `n_cycles_overestimate = int(np.ceil(n_samples / mean_period_samples * 2))`. -/
def nCyclesOverestimate (nSamples meanPeriodSamples : ℤ) : ℤ :=
  ⌈(nSamples : ℚ) / (meanPeriodSamples : ℚ) * 2⌉

/-- The table-building stage of `sim_bursty_oscillation_features`: everything up
to and including the pre-truncation dataframe (rows with `start_sample`),
returned together with `n_samples`. -/
def pipelineTable (nSeconds fs freq rdsym enterBurst leaveBurst : ℚ)
    (ov : FeatureOverrides) (nTries : ℕ) (drawsU drawsN : ℕ → ℚ) :
    Except SimError (List CycleRow × ℤ) :=
  let meanPeriodSamples := pyInt (fs / freq)
  let cf := resolveFeatures meanPeriodSamples rdsym ov
  let nSamples := pyInt (nSeconds * fs)
  if meanPeriodSamples = 0 then .error .zeroDivision
  else
    let nCycles := nCyclesOverestimate nSamples meanPeriodSamples
    match makeIsOsc nCycles.toNat enterBurst leaveBurst drawsU with
    | none => .error .indexError
    | some flags =>
        match determineCycleProperties cf nTries drawsN flags 0 none with
        | .error e => .error (.feature e)
        | .ok props => .ok (attachStarts 0 props, nSamples)

/-- `sim_bursty_oscillation_features` (signal only): build the table, keep the
rows with `start_sample < n_samples`, synthesize, truncate to `n_samples`. -/
def simBurstyOscillationFeatures (cosPi : ℚ → ℚ)
    (nSeconds fs freq rdsym enterBurst leaveBurst : ℚ)
    (ov : FeatureOverrides) (nTries : ℕ) (drawsU drawsN : ℕ → ℚ) :
    Except SimError (List ℚ) :=
  match pipelineTable nSeconds fs freq rdsym enterBurst leaveBurst ov nTries drawsU drawsN with
  | .error e => .error e
  | .ok (table, nSamples) =>
      let kept := table.filter fun r => r.startSample < nSamples
      match simCycles cosPi kept with
      | .error e => .error (.cycles e)
      | .ok sig => .ok (sig.take nSamples.toNat)

deriving instance DecidableEq for Except

/-- The feature sampler's validity predicate read off a stored row: `period > 0`,
and for an oscillating row a real (non-NaN) `amp > 0` and `rdsym ∈ (0, 1)`. -/
def rowValidB (r : CycleRow) : Bool :=
  decide (0 < r.period) &&
  (!r.isCycle ||
    (match r.amp, r.rdsym with
     | some a, some s => decide (0 < a) && decide (0 < s) && decide (s < 1)
     | _, _ => false))

/-- Sum of the `period` column of a table. -/
def periodSum : List CycleRow → ℤ
  | [] => 0
  | r :: rest => r.period + periodSum rest

/-- Sum of the `period` values of a property list. -/
def propsPeriodSum : List CycleProps → ℤ
  | [] => 0
  | p :: rest => p.period + propsPeriodSum rest

/-- The burst-entry coverage condition: processing the given rows from a state
with `emitted` samples and flag `lastOsc`, every oscillating row that begins a
burst must find at least `int(period/4) - 1` already-emitted samples (the rise
segment overwrites that many samples instead of appending). -/
def entryOkB : Bool → ℤ → List CycleRow → Bool
  | _, _, [] => true
  | lastOsc, emitted, r :: rest =>
      (!(r.isCycle && !lastOsc) || decide (pyInt ((r.period : ℚ) / 4) - 1 ≤ emitted)) &&
      entryOkB r.isCycle (emitted + r.period) rest

/-! ## Basic facts about the sampler -/

lemma detProps_nil (cf : CycleFeatures) (nTries : ℕ) (draws : ℕ → ℚ) (k : ℕ)
    (cb : Option (Option Burst)) :
    determineCycleProperties cf nTries draws [] k cb = .ok [] := rfl

lemma detProps_false (cf : CycleFeatures) (nTries : ℕ) (draws : ℕ → ℚ)
    (rest : List Bool) (k : ℕ) (cb : Option (Option Burst)) :
    determineCycleProperties cf nTries draws (false :: rest) k cb =
      (determineCycleProperties cf nTries draws rest (k + 1) (some none)).map
        fun l => ⟨false, pyInt (cf.period_mean + draws k * cf.period_std), none, none⟩ :: l := rfl

lemma detProps_true_uninit (cf : CycleFeatures) (nTries : ℕ) (draws : ℕ → ℚ)
    (rest : List Bool) (k : ℕ) :
    determineCycleProperties cf nTries draws (true :: rest) k none =
      .error FeatureError.uninitBurst := rfl

lemma detProps_true_newburst (cf : CycleFeatures) (nTries : ℕ) (draws : ℕ → ℚ)
    (rest : List Bool) (k : ℕ) :
    determineCycleProperties cf nTries draws (true :: rest) k (some none) =
      (if (tryLoop cf (freshBurst cf draws k) draws (k + 3) (nTries - 1)).2.1 then
        (determineCycleProperties cf nTries draws rest
            (tryLoop cf (freshBurst cf draws k) draws (k + 3) (nTries - 1)).2.2
            (some (some (freshBurst cf draws k)))).map
          fun l => ⟨true,
                    pyInt (tryLoop cf (freshBurst cf draws k) draws (k + 3) (nTries - 1)).1.1,
                    some (tryLoop cf (freshBurst cf draws k) draws (k + 3) (nTries - 1)).1.2.1,
                    some (tryLoop cf (freshBurst cf draws k) draws (k + 3) (nTries - 1)).1.2.2⟩ :: l
      else .error (.invalidFeatures
            (invalidList (tryLoop cf (freshBurst cf draws k) draws (k + 3) (nTries - 1)).1))) := rfl

lemma detProps_true_cont (cf : CycleFeatures) (nTries : ℕ) (draws : ℕ → ℚ)
    (rest : List Bool) (k : ℕ) (b : Burst) :
    determineCycleProperties cf nTries draws (true :: rest) k (some (some b)) =
      (if (tryLoop cf b draws k (nTries - 1)).2.1 then
        (determineCycleProperties cf nTries draws rest (tryLoop cf b draws k (nTries - 1)).2.2
            (some (some b))).map
          fun l => ⟨true, pyInt (tryLoop cf b draws k (nTries - 1)).1.1,
                    some (tryLoop cf b draws k (nTries - 1)).1.2.1,
                    some (tryLoop cf b draws k (nTries - 1)).1.2.2⟩ :: l
      else .error (.invalidFeatures (invalidList (tryLoop cf b draws k (nTries - 1)).1))) := rfl

/-- Once `cur_burst` has been assigned (state `some x`), the sampler never hits
the uninitialised-read error: a `false` slot re-assigns the NaN dict and a
`true` slot either keeps or re-assigns real burst means. -/
lemma detProps_assigned_ne_uninit (cf : CycleFeatures) (nTries : ℕ) (draws : ℕ → ℚ) :
    ∀ (flags : List Bool) (k : ℕ) (x : Option Burst),
      determineCycleProperties cf nTries draws flags k (some x) ≠
        .error FeatureError.uninitBurst := by
  intro flags
  induction flags with
  | nil => intro k x h; simp [detProps_nil] at h
  | cons f rest ih =>
      intro k x h
      cases f with
      | false =>
          rw [detProps_false] at h
          cases hr : determineCycleProperties cf nTries draws rest (k + 1) (some none) with
          | ok l => rw [hr] at h; simp [Except.map] at h
          | error e =>
              rw [hr] at h
              simp only [Except.map] at h
              exact ih (k + 1) none (by rw [hr]; exact h)
      | true =>
          cases x with
          | none =>
              rw [detProps_true_newburst] at h
              by_cases hv : (tryLoop cf (freshBurst cf draws k) draws (k + 3) (nTries - 1)).2.1
              · rw [if_pos hv] at h
                cases hr : determineCycleProperties cf nTries draws rest
                    (tryLoop cf (freshBurst cf draws k) draws (k + 3) (nTries - 1)).2.2
                    (some (some (freshBurst cf draws k))) with
                | ok l => rw [hr] at h; simp [Except.map] at h
                | error e =>
                    rw [hr] at h
                    simp only [Except.map] at h
                    exact ih _ _ (by rw [hr]; exact h)
              · rw [if_neg hv] at h
                exact FeatureError.noConfusion (Except.error.inj h)
          | some b =>
              rw [detProps_true_cont] at h
              by_cases hv : (tryLoop cf b draws k (nTries - 1)).2.1
              · rw [if_pos hv] at h
                cases hr : determineCycleProperties cf nTries draws rest
                    (tryLoop cf b draws k (nTries - 1)).2.2 (some (some b)) with
                | ok l => rw [hr] at h; simp [Except.map] at h
                | error e =>
                    rw [hr] at h
                    simp only [Except.map] at h
                    exact ih _ _ (by rw [hr]; exact h)
              · rw [if_neg hv] at h
                exact FeatureError.noConfusion (Except.error.inj h)

/-- **C10** — the sampler reads the burst context only after initialising it
whenever the first flag is `false` (which `_make_is_osc` guarantees): a run on
`false :: rest` can never fail with the uninitialised-context error.  Taken in
isolation, `flags[0] = false` is a genuine precondition: on `true :: rest` the
context is read before ever being assigned and the run fails immediately with
exactly that error. -/
theorem c10_burst_context_initialisation :
    (∀ (cf : CycleFeatures) (nTries : ℕ) (draws : ℕ → ℚ) (rest : List Bool) (k : ℕ),
        determineCycleProperties cf nTries draws (false :: rest) k none ≠
          .error FeatureError.uninitBurst) ∧
    (∀ (cf : CycleFeatures) (nTries : ℕ) (draws : ℕ → ℚ) (rest : List Bool) (k : ℕ),
        determineCycleProperties cf nTries draws (true :: rest) k none =
          .error FeatureError.uninitBurst) := by
  constructor
  · intro cf nTries draws rest k h
    rw [determineCycleProperties] at h
    cases hr : determineCycleProperties cf nTries draws rest (k + 1) (some none) with
    | ok l => rw [hr] at h; simp [Except.map] at h
    | error e =>
        rw [hr] at h
        simp [Except.map] at h
        exact detProps_assigned_ne_uninit cf nTries draws rest (k + 1) none (by rw [hr, h])
  · intro cf nTries draws rest k
    rw [determineCycleProperties]

/-- An accepted attempt really satisfied the acceptance test. -/
lemma tryLoop_accepted (cf : CycleFeatures) (b : Burst) (draws : ℕ → ℚ) :
    ∀ (fuel k : ℕ), (tryLoop cf b draws k fuel).2.1 = true →
      validTriple (tryLoop cf b draws k fuel).1 = true := by
  intro fuel
  induction fuel with
  | zero =>
      intro k h
      simp only [tryLoop] at h ⊢
      exact h
  | succ n ih =>
      intro k h
      by_cases hv : validTriple (drawTriple cf b draws k)
      · simp [tryLoop, hv]
      · rw [tryLoop] at h ⊢
        rw [if_neg (by simp [hv])] at h ⊢
        exact ih (k + 3) h

lemma validTriple_iff (v : ℚ × ℚ × ℚ) :
    validTriple v = true ↔ 0 < v.1 ∧ 0 < v.2.1 ∧ 0 < v.2.2 ∧ v.2.2 < 1 := by
  simp [validTriple, and_assoc]

/-- **C1** (amended) — in every successful sampler run, a record with
`is_cycle = true` has stored period `≥ 0` (the accepted real period is `> 0`,
but its stored form is `int(period)`, which truncates toward zero and can be
`0`), a real stored `amp > 0`, and a real stored `rdsym ∈ (0, 1)`; a record
with `is_cycle = false` has NaN `amp` and `rdsym`. -/
theorem c1_record_validity (cf : CycleFeatures) (nTries : ℕ) (draws : ℕ → ℚ)
    (flags : List Bool) (k : ℕ) (cb : Option (Option Burst)) (props : List CycleProps)
    (h : determineCycleProperties cf nTries draws flags k cb = .ok props) :
    ∀ p ∈ props,
      (p.isCycle = true → 0 ≤ p.period ∧
        (∃ a, p.amp = some a ∧ 0 < a) ∧ (∃ s, p.rdsym = some s ∧ 0 < s ∧ s < 1)) ∧
      (p.isCycle = false → p.amp = none ∧ p.rdsym = none) := by
  induction flags generalizing k cb props with
  | nil =>
      rw [detProps_nil] at h
      cases h
      intro p hp
      simp at hp
  | cons f rest ih =>
      cases f with
      | false =>
          rw [detProps_false] at h
          cases hr : determineCycleProperties cf nTries draws rest (k + 1) (some none) with
          | error e => rw [hr] at h; simp [Except.map] at h
          | ok l =>
              rw [hr] at h
              simp only [Except.map, Except.ok.injEq] at h
              subst h
              intro p hp
              rcases List.mem_cons.mp hp with hp | hp
              · subst hp
                exact ⟨fun hc => by simp at hc, fun _ => ⟨rfl, rfl⟩⟩
              · exact ih (k + 1) (some none) l hr p hp
      | true =>
          cases cb with
          | none => rw [detProps_true_uninit] at h; cases h
          | some cbv =>
              -- both the fresh-burst and the continuing-burst case step through the
              -- retry loop; handle them uniformly
              rcases hshape :
                  (match cbv with
                   | none => (freshBurst cf draws k, k + 3)
                   | some b0 => (b0, k) : Burst × ℕ) with ⟨b, k1⟩
              have hrun : determineCycleProperties cf nTries draws (true :: rest) k (some cbv) =
                  (if (tryLoop cf b draws k1 (nTries - 1)).2.1 then
                    (determineCycleProperties cf nTries draws rest
                        (tryLoop cf b draws k1 (nTries - 1)).2.2 (some (some b))).map
                      fun l => ⟨true, pyInt (tryLoop cf b draws k1 (nTries - 1)).1.1,
                                some (tryLoop cf b draws k1 (nTries - 1)).1.2.1,
                                some (tryLoop cf b draws k1 (nTries - 1)).1.2.2⟩ :: l
                  else .error (.invalidFeatures
                        (invalidList (tryLoop cf b draws k1 (nTries - 1)).1))) := by
                cases cbv with
                | none =>
                    simp only [Prod.mk.injEq] at hshape
                    rw [detProps_true_newburst, hshape.1, hshape.2]
                | some b0 =>
                    simp only [Prod.mk.injEq] at hshape
                    rw [detProps_true_cont, hshape.1, hshape.2]
              rw [hrun] at h
              by_cases hv : (tryLoop cf b draws k1 (nTries - 1)).2.1
              · rw [if_pos hv] at h
                cases hr : determineCycleProperties cf nTries draws rest
                    (tryLoop cf b draws k1 (nTries - 1)).2.2 (some (some b)) with
                | error e => rw [hr] at h; simp [Except.map] at h
                | ok l =>
                    rw [hr] at h
                    simp only [Except.map, Except.ok.injEq] at h
                    subst h
                    intro p hp
                    rcases List.mem_cons.mp hp with hp | hp
                    · subst hp
                      have hval := (validTriple_iff _).mp (tryLoop_accepted cf b draws _ _ hv)
                      refine ⟨fun _ => ⟨?_, ⟨_, rfl, hval.2.1⟩, ⟨_, rfl, hval.2.2.1, hval.2.2.2⟩⟩,
                              fun hc => by simp at hc⟩
                      have hpos : (0 : ℚ) < (tryLoop cf b draws k1 (nTries - 1)).1.1 := hval.1
                      simp only [pyInt, le_of_lt hpos, if_pos (le_of_lt hpos)]
                      exact Int.floor_nonneg.mpr (le_of_lt hpos)
                    · exact ih _ _ l hr p hp
              · rw [if_neg hv] at h
                cases h

/-- **C1** counterexample — with `period_mean = 1/2` and all deviations zero,
every attempt draws `period = 1/2 > 0`, which is accepted; but the stored
integer form is `int(0.5) = 0`, so the emitted oscillating record has
`period = 0`, violating `period > 0` "as stored in the record". -/
theorem c1_counterexample :
    determineCycleProperties ⟨1, 0, 0, 1/2, 0, 0, 1/2, 0, 0⟩ 5 (fun _ => 0)
        [false, true] 0 none =
      .ok [⟨false, 0, none, none⟩, ⟨true, 0, some 1, some (1/2)⟩] ∧
    ¬ (0 : ℤ) > 0 :=
  ⟨by decide, by decide⟩

/-- **C2** counterexample — with `period_mean = 0` and all deviations zero,
every attempt draws `period = 0`, which fails the validity test
(`period > 0`), so all `n_tries` attempts are exhausted and the error is
raised; but the reported feature list is built with the strict test
`eval(label) < 0`, so `period = 0` is **not** reported: the error carries an
empty feature list instead of naming `period`. -/
theorem c2_counterexample :
    determineCycleProperties ⟨1, 0, 0, 0, 0, 0, 1/2, 0, 0⟩ 3 (fun _ => 0)
        [false, true] 0 none =
      .error (.invalidFeatures []) ∧
    "period" ∉ ([] : List String) :=
  ⟨by decide, by decide⟩

/-- **C2** (amended) — when the retry loop exhausts all attempts for an
oscillating cycle, the sampler raises the invalid-feature error carrying
`invalidList` of the final attempt; and `invalidList` names exactly the
features that are **strictly negative** (`period`, `amp`, `rdsym`), plus
`rdsym` when it is **strictly greater than 1**.  Boundary values
(`period = 0`, `amp = 0`, `rdsym = 0`, `rdsym = 1`) fail validity but are not
named. -/
theorem c2_error_reporting (cf : CycleFeatures) (nTries : ℕ) (draws : ℕ → ℚ)
    (rest : List Bool) (k : ℕ) (b : Burst)
    (hfail : (tryLoop cf b draws k (nTries - 1)).2.1 = false) :
    determineCycleProperties cf nTries draws (true :: rest) k (some (some b)) =
      .error (.invalidFeatures (invalidList (tryLoop cf b draws k (nTries - 1)).1)) ∧
    ∀ p a r : ℚ,
      ("period" ∈ invalidList (p, a, r) ↔ p < 0) ∧
      ("amp" ∈ invalidList (p, a, r) ↔ a < 0) ∧
      ("rdsym" ∈ invalidList (p, a, r) ↔ (r < 0 ∨ 1 < r)) := by
  constructor
  · rw [detProps_true_cont, if_neg (by simp [hfail])]
  · intro p a r
    refine ⟨?_, ?_, ?_⟩ <;>
      · simp only [invalidList]
        split <;> split <;> split <;> split <;>
          simp_all

/-- Closed witness for `c2_error_reporting`: with burst means
`(0, 1, 1/2)` and zero deviations every attempt fails, and the
resulting error carries the empty list. -/
theorem c2_error_reporting_witness :
    determineCycleProperties ⟨1, 0, 0, 0, 0, 0, 1/2, 0, 0⟩ 3 (fun _ => 0)
        [true] 0 (some (some ⟨0, 1, 1/2⟩)) =
      .error (.invalidFeatures (invalidList (tryLoop ⟨1, 0, 0, 0, 0, 0, 1/2, 0, 0⟩
        ⟨0, 1, 1/2⟩ (fun _ => 0) 0 (3 - 1)).1)) ∧
    ∀ p a r : ℚ,
      ("period" ∈ invalidList (p, a, r) ↔ p < 0) ∧
      ("amp" ∈ invalidList (p, a, r) ↔ a < 0) ∧
      ("rdsym" ∈ invalidList (p, a, r) ↔ (r < 0 ∨ 1 < r)) :=
  c2_error_reporting ⟨1, 0, 0, 0, 0, 0, 1/2, 0, 0⟩ 3 (fun _ => 0) [] 0 ⟨0, 1, 1/2⟩ (by decide)

/-- **C5** counterexample — a non-oscillating slot samples `period = 2.7`;
the stored value is `int(2.7) = 2` (truncation toward zero), not the
nearest-integer rounding `round(2.7) = 3`. -/
theorem c5_counterexample :
    determineCycleProperties ⟨1, 0, 0, 27/10, 0, 0, 1/2, 0, 0⟩ 5 (fun _ => 0)
        [false] 0 none =
      .ok [⟨false, 2, none, none⟩] ∧
    round ((27 : ℚ)/10) = 3 ∧ (2 : ℤ) ≠ 3 :=
  ⟨by decide, by norm_num [round_eq], by decide⟩

/-- **C5** (amended) — the stored period is the **truncation toward zero**
(Python `int(·)`, `pyInt` here) of the sampled real value, both for a
non-oscillating slot (`mean + draw·std`) and for an oscillating slot (the
accepted attempt); `amp` and `rdsym` are stored exactly as drawn. -/
theorem c5_stored_forms :
    (∀ (cf : CycleFeatures) (nTries : ℕ) (draws : ℕ → ℚ) (rest : List Bool) (k : ℕ)
        (cb : Option (Option Burst)) (props : List CycleProps),
      determineCycleProperties cf nTries draws (false :: rest) k cb = .ok props →
      props.head? = some ⟨false, pyInt (cf.period_mean + draws k * cf.period_std),
        none, none⟩) ∧
    (∀ (cf : CycleFeatures) (nTries : ℕ) (draws : ℕ → ℚ) (rest : List Bool) (k : ℕ)
        (b : Burst) (props : List CycleProps),
      determineCycleProperties cf nTries draws (true :: rest) k (some (some b)) = .ok props →
      props.head? = some ⟨true, pyInt (tryLoop cf b draws k (nTries - 1)).1.1,
        some (tryLoop cf b draws k (nTries - 1)).1.2.1,
        some (tryLoop cf b draws k (nTries - 1)).1.2.2⟩) := by
  constructor
  · intro cf nTries draws rest k cb props h
    rw [detProps_false] at h
    cases hr : determineCycleProperties cf nTries draws rest (k + 1) (some none) with
    | error e => rw [hr] at h; simp [Except.map] at h
    | ok l =>
        rw [hr] at h
        simp only [Except.map, Except.ok.injEq] at h
        subst h
        rfl
  · intro cf nTries draws rest k b props h
    rw [detProps_true_cont] at h
    by_cases hv : (tryLoop cf b draws k (nTries - 1)).2.1
    · rw [if_pos hv] at h
      cases hr : determineCycleProperties cf nTries draws rest
          (tryLoop cf b draws k (nTries - 1)).2.2 (some (some b)) with
      | error e => rw [hr] at h; simp [Except.map] at h
      | ok l =>
          rw [hr] at h
          simp only [Except.map, Except.ok.injEq] at h
          subst h
          rfl
    · rw [if_neg hv] at h
      cases h

/-- Closed witness for `c5_stored_forms` (first conjunct): a non-oscillating
slot with sampled period `2.7` stores `pyInt 2.7 = 2`. -/
theorem c5_stored_forms_witness :
    ([⟨false, 2, none, none⟩] : List CycleProps).head? =
      some ⟨false, pyInt ((⟨1, 0, 0, 27/10, 0, 0, 1/2, 0, 0⟩ : CycleFeatures).period_mean +
        (fun _ => (0 : ℚ)) 0 * (⟨1, 0, 0, 27/10, 0, 0, 1/2, 0, 0⟩ : CycleFeatures).period_std),
        none, none⟩ :=
  c5_stored_forms.1 ⟨1, 0, 0, 27/10, 0, 0, 1/2, 0, 0⟩ 5 (fun _ => 0) [] 0 none
    [⟨false, 2, none, none⟩] (by decide)

/-- Closed witness for `c1_record_validity`: in a concrete successful run with
one quiescent and two oscillating slots, the first oscillating record satisfies
the stored-form bounds. -/
theorem c1_record_validity_witness :
    0 ≤ (⟨true, 10, some 1, some (1/2)⟩ : CycleProps).period ∧
    (∃ a, (⟨true, 10, some 1, some (1/2)⟩ : CycleProps).amp = some a ∧ 0 < a) ∧
    (∃ s, (⟨true, 10, some 1, some (1/2)⟩ : CycleProps).rdsym = some s ∧ 0 < s ∧ s < 1) :=
  (c1_record_validity ⟨1, 0, 0, 10, 0, 0, 1/2, 0, 0⟩ 5 (fun _ => 0) [false, true, true] 0 none
    [⟨false, 10, none, none⟩, ⟨true, 10, some 1, some (1/2)⟩, ⟨true, 10, some 1, some (1/2)⟩]
    (by decide) ⟨true, 10, some 1, some (1/2)⟩ (by simp)).1 rfl

/-- Closed witness for `c10_burst_context_initialisation`: a concrete run on
`[true]` fails with the uninitialised-context error. -/
theorem c10_burst_context_initialisation_witness :
    determineCycleProperties ⟨1, 0, 0, 10, 0, 0, 1/2, 0, 0⟩ 5 (fun _ => 0) [true] 0 none =
      .error FeatureError.uninitBurst :=
  c10_burst_context_initialisation.2 ⟨1, 0, 0, 10, 0, 0, 1/2, 0, 0⟩ 5 (fun _ => 0) [] 0

/-! ## The burst-state generator -/

lemma makeIsOscFrom_length (enterBurst leaveBurst : ℚ) (draws : ℕ → ℚ) :
    ∀ (n i : ℕ) (prev : Bool),
      (makeIsOscFrom enterBurst leaveBurst draws n i prev).length = n := by
  intro n
  induction n with
  | zero => intro i prev; rfl
  | succ m ih => intro i prev; simp [makeIsOscFrom, ih]

/-- Adjacent-element relation for the generator loop: in
`prev :: makeIsOscFrom e l d n i prev`, element `j + 1` is obtained from
element `j` by the transition rule, consuming draw `i + j`. -/
lemma makeIsOscFrom_chain (enterBurst leaveBurst : ℚ) (draws : ℕ → ℚ) :
    ∀ (n i : ℕ) (prev : Bool) (j : ℕ), j < n →
      (prev :: makeIsOscFrom enterBurst leaveBurst draws n i prev).getD (j + 1) false =
        nextFlag enterBurst leaveBurst (draws (i + j))
          ((prev :: makeIsOscFrom enterBurst leaveBurst draws n i prev).getD j false) := by
  intro n
  induction n with
  | zero => intro i prev j hj; omega
  | succ m ih =>
      intro i prev j hj
      cases j with
      | zero => simp [makeIsOscFrom]
      | succ jj =>
          have h2 := ih (i + 1) (nextFlag enterBurst leaveBurst (draws i) prev) jj (by omega)
          simp only [makeIsOscFrom]
          simp only [List.getD_cons_succ] at h2 ⊢
          rw [h2]
          congr 2
          omega

/-- **C7** — for `n ≥ 1` the burst-state generator returns exactly `n` flags,
the first flag is `false`, and every later flag follows the two-state rule: if
the previous flag is `true` the slot oscillates iff the draw exceeds
`leave_burst`, otherwise iff the draw is below `enter_burst` (slot `i`
consumes draw `i - 1`). -/
theorem c7_burst_flags (n : ℕ) (hn : 1 ≤ n) (enterBurst leaveBurst : ℚ) (draws : ℕ → ℚ) :
    ∃ flags, makeIsOsc n enterBurst leaveBurst draws = some flags ∧
      flags.length = n ∧
      flags.getD 0 true = false ∧
      ∀ i, 1 ≤ i → i < n →
        flags.getD i false =
          (if flags.getD (i - 1) false then decide (leaveBurst < draws (i - 1))
           else decide (draws (i - 1) < enterBurst)) := by
  obtain ⟨m, rfl⟩ : ∃ m, n = m + 1 := ⟨n - 1, by omega⟩
  refine ⟨false :: makeIsOscFrom enterBurst leaveBurst draws m 0 false, rfl, ?_, rfl, ?_⟩
  · simp [makeIsOscFrom_length]
  · intro i h1 h2
    obtain ⟨j, rfl⟩ : ∃ j, i = j + 1 := ⟨i - 1, by omega⟩
    have := makeIsOscFrom_chain enterBurst leaveBurst draws m 0 false j (by omega)
    simp only [Nat.zero_add] at this
    rw [this]
    simp [nextFlag]

/-- Closed witness for `c7_burst_flags` at `n = 3`. -/
theorem c7_burst_flags_witness :
    ∃ flags, makeIsOsc 3 1 0 (fun _ => (1 : ℚ)/2) = some flags ∧
      flags.length = 3 ∧
      flags.getD 0 true = false ∧
      ∀ i, 1 ≤ i → i < 3 →
        flags.getD i false =
          (if flags.getD (i - 1) false then decide ((0 : ℚ) < (fun _ => (1 : ℚ)/2) (i - 1))
           else decide ((fun _ => (1 : ℚ)/2) (i - 1) < 1)) :=
  c7_burst_flags 3 (by decide) 1 0 (fun _ => (1 : ℚ)/2)

/-! ## The table-building stage -/

/-- A successful sampler run emits one record per flag. -/
lemma detProps_ok_length (cf : CycleFeatures) (nTries : ℕ) (draws : ℕ → ℚ) :
    ∀ (flags : List Bool) (k : ℕ) (cb : Option (Option Burst)) (props : List CycleProps),
      determineCycleProperties cf nTries draws flags k cb = .ok props →
      props.length = flags.length := by
  intro flags
  induction flags with
  | nil => intro k cb props h; rw [detProps_nil] at h; cases h; rfl
  | cons f rest ih =>
      intro k cb props h
      cases f with
      | false =>
          rw [detProps_false] at h
          cases hr : determineCycleProperties cf nTries draws rest (k + 1) (some none) with
          | error e => rw [hr] at h; simp [Except.map] at h
          | ok l =>
              rw [hr] at h
              simp only [Except.map, Except.ok.injEq] at h
              subst h
              simp [ih _ _ _ hr]
      | true =>
          cases cb with
          | none => rw [detProps_true_uninit] at h; cases h
          | some cbv =>
              cases cbv with
              | none =>
                  rw [detProps_true_newburst] at h
                  by_cases hv :
                      (tryLoop cf (freshBurst cf draws k) draws (k + 3) (nTries - 1)).2.1
                  · rw [if_pos hv] at h
                    cases hr : determineCycleProperties cf nTries draws rest
                        (tryLoop cf (freshBurst cf draws k) draws (k + 3) (nTries - 1)).2.2
                        (some (some (freshBurst cf draws k))) with
                    | error e => rw [hr] at h; simp [Except.map] at h
                    | ok l =>
                        rw [hr] at h
                        simp only [Except.map, Except.ok.injEq] at h
                        subst h
                        simp [ih _ _ _ hr]
                  · rw [if_neg hv] at h; cases h
              | some b =>
                  rw [detProps_true_cont] at h
                  by_cases hv : (tryLoop cf b draws k (nTries - 1)).2.1
                  · rw [if_pos hv] at h
                    cases hr : determineCycleProperties cf nTries draws rest
                        (tryLoop cf b draws k (nTries - 1)).2.2 (some (some b)) with
                    | error e => rw [hr] at h; simp [Except.map] at h
                    | ok l =>
                        rw [hr] at h
                        simp only [Except.map, Except.ok.injEq] at h
                        subst h
                        simp [ih _ _ _ hr]
                  · rw [if_neg hv] at h; cases h

lemma attachStarts_length : ∀ (props : List CycleProps) (acc : ℤ),
    (attachStarts acc props).length = props.length := by
  intro props
  induction props with
  | nil => intro acc; rfl
  | cons p rest ih => intro acc; simp [attachStarts, ih]

/-- Rows of `attachStarts` carry the same periods as the property list. -/
lemma attachStarts_map_period : ∀ (props : List CycleProps) (acc : ℤ),
    (attachStarts acc props).map (fun r => r.period) = props.map (fun p => p.period) := by
  intro props
  induction props with
  | nil => intro acc; rfl
  | cons p rest ih => intro acc; simp [attachStarts, ih]

/-- Structural inversion of a successful table stage: the table is
`attachStarts 0` of a successful sampler run on the generated flags, `n_samples`
is `int(n_seconds * fs)`, and the number of rows is the overestimated cycle
count. -/
lemma pipelineTable_ok_inv (nSeconds fs freq rdsym enterBurst leaveBurst : ℚ)
    (ov : FeatureOverrides) (nTries : ℕ) (drawsU drawsN : ℕ → ℚ)
    (table : List CycleRow) (nSamples : ℤ)
    (h : pipelineTable nSeconds fs freq rdsym enterBurst leaveBurst ov nTries drawsU drawsN =
      .ok (table, nSamples)) :
    nSamples = pyInt (nSeconds * fs) ∧
    ∃ props flags,
      makeIsOsc (nCyclesOverestimate (pyInt (nSeconds * fs)) (pyInt (fs / freq))).toNat
          enterBurst leaveBurst drawsU = some flags ∧
      determineCycleProperties (resolveFeatures (pyInt (fs / freq)) rdsym ov) nTries drawsN
          flags 0 none = .ok props ∧
      table = attachStarts 0 props ∧
      table.length = (nCyclesOverestimate (pyInt (nSeconds * fs)) (pyInt (fs / freq))).toNat := by
  rw [pipelineTable] at h
  by_cases hmp : pyInt (fs / freq) = 0
  · rw [if_pos hmp] at h; cases h
  · rw [if_neg hmp] at h
    dsimp only [] at h
    cases hf : makeIsOsc (nCyclesOverestimate (pyInt (nSeconds * fs))
        (pyInt (fs / freq))).toNat enterBurst leaveBurst drawsU with
    | none => rw [hf] at h; cases h
    | some flags =>
        rw [hf] at h
        dsimp only [] at h
        cases hp : determineCycleProperties (resolveFeatures (pyInt (fs / freq)) rdsym ov)
            nTries drawsN flags 0 none with
        | error e => rw [hp] at h; cases h
        | ok props =>
            rw [hp] at h
            simp only [Except.ok.injEq, Prod.mk.injEq] at h
            obtain ⟨rfl, rfl⟩ := h
            have hlen : flags.length =
                (nCyclesOverestimate (pyInt (nSeconds * fs)) (pyInt (fs / freq))).toNat := by
              cases hn : (nCyclesOverestimate (pyInt (nSeconds * fs))
                  (pyInt (fs / freq))).toNat with
              | zero => rw [hn] at hf; simp [makeIsOsc] at hf
              | succ m =>
                  rw [hn] at hf
                  simp only [makeIsOsc, Option.some.injEq] at hf
                  rw [← hf]
                  simp [makeIsOscFrom_length]
            exact ⟨rfl, props, flags, rfl, hp,
              rfl, by rw [attachStarts_length, detProps_ok_length _ _ _ _ _ _ _ hp, hlen]⟩

/-- **C6** counterexample — with `n_seconds = 2.5`, `fs = 2`, `freq = 1` the
sample count is `5` and the mean period is `2`; the source computes
`int(np.ceil(5 / 2 * 2)) = 5` flags, but `⌈5 / 2⌉ × 2 = 6`, so the claimed
formula over-counts by one. -/
theorem c6_counterexample :
    pipelineTable (5/2) 2 1 (1/2) 0 0 {} 5 (fun _ => 1/2) (fun _ => 0) =
      .ok ([⟨false, 2, none, none, 0⟩, ⟨false, 2, none, none, 2⟩, ⟨false, 2, none, none, 4⟩,
            ⟨false, 2, none, none, 6⟩, ⟨false, 2, none, none, 8⟩], 5) ∧
    (5 : ℤ) ≠ ⌈(5 : ℚ) / 2⌉ * 2 :=
  ⟨by decide, by decide⟩

/-- **C6** (amended) — the number of cycle slots (= rows of the pre-truncation
table = length of the flag sequence) is `⌈n_samples / mean_period · 2⌉`, the
ceiling of the already-doubled quotient — not `⌈n_samples / mean_period⌉ · 2`,
which can exceed it by one. -/
theorem c6_cycle_count (nSeconds fs freq rdsym enterBurst leaveBurst : ℚ)
    (ov : FeatureOverrides) (nTries : ℕ) (drawsU drawsN : ℕ → ℚ)
    (table : List CycleRow) (nSamples : ℤ)
    (h : pipelineTable nSeconds fs freq rdsym enterBurst leaveBurst ov nTries drawsU drawsN =
      .ok (table, nSamples)) :
    table.length = (nCyclesOverestimate (pyInt (nSeconds * fs)) (pyInt (fs / freq))).toNat := by
  exact (pipelineTable_ok_inv nSeconds fs freq rdsym enterBurst leaveBurst ov nTries
    drawsU drawsN table nSamples h).2.choose_spec.choose_spec.2.2.2

/-- Closed witness for `c6_cycle_count`: the run of `c6_counterexample` has
`⌈5/2·2⌉ = 5` rows. -/
theorem c6_cycle_count_witness :
    ([⟨false, 2, none, none, 0⟩, ⟨false, 2, none, none, 2⟩, ⟨false, 2, none, none, 4⟩,
      ⟨false, 2, none, none, 6⟩, ⟨false, 2, none, none, 8⟩] : List CycleRow).length =
      (nCyclesOverestimate (pyInt ((5/2) * 2)) (pyInt (2 / 1))).toNat :=
  c6_cycle_count (5/2) 2 1 (1/2) 0 0 {} 5 (fun _ => 1/2) (fun _ => 0) _ 5 (by decide)

/-! ## Start-sample structure of the table -/

lemma propsPeriodSum_take_succ : ∀ (props : List CycleProps) (k : ℕ) (hk : k < props.length),
    propsPeriodSum (props.take (k + 1)) =
      propsPeriodSum (props.take k) + (props.get ⟨k, hk⟩).period := by
  intro props
  induction props with
  | nil => intro k hk; simp at hk
  | cons p rest ih =>
      intro k hk
      cases k with
      | zero => simp [propsPeriodSum]
      | succ m =>
          have := ih m (by simpa using hk)
          simp only [List.take_succ_cons, propsPeriodSum, List.get_cons_succ]
          rw [this]
          omega

lemma propsPeriodSum_take_mono (props : List CycleProps)
    (hpos : ∀ p ∈ props, 0 ≤ p.period) :
    ∀ j k : ℕ, j ≤ k → propsPeriodSum (props.take j) ≤ propsPeriodSum (props.take k) := by
  intro j k hjk
  induction k, hjk using Nat.le_induction with
  | base => exact le_refl _
  | succ m hm ih =>
      by_cases hlt : m < props.length
      · rw [propsPeriodSum_take_succ props m hlt]
        have : 0 ≤ (props.get ⟨m, hlt⟩).period := hpos _ (props.get_mem m hlt)
        omega
      · have h1 : props.take (m + 1) = props := List.take_of_length_le (by omega)
        have h2 : props.take m = props := List.take_of_length_le (by omega)
        rw [h1]
        rw [h2] at ih
        exact ih

lemma attachStarts_getElem_start : ∀ (props : List CycleProps) (acc : ℤ) (k : ℕ)
    (hk : k < (attachStarts acc props).length),
    ((attachStarts acc props).get ⟨k, hk⟩).startSample = acc + propsPeriodSum (props.take k) := by
  intro props
  induction props with
  | nil => intro acc k hk; simp [attachStarts] at hk
  | cons p rest ih =>
      intro acc k hk
      cases k with
      | zero => simp [attachStarts, propsPeriodSum]
      | succ m =>
          simp only [attachStarts, List.get_cons_succ]
          rw [ih (acc + p.period) m _]
          simp only [List.take_succ_cons, propsPeriodSum]
          omega

lemma attachStarts_getElem_period : ∀ (props : List CycleProps) (acc : ℤ) (k : ℕ)
    (hk : k < (attachStarts acc props).length) (hk2 : k < props.length),
    ((attachStarts acc props).get ⟨k, hk⟩).period = (props.get ⟨k, hk2⟩).period := by
  intro props
  induction props with
  | nil => intro acc k hk hk2; simp [attachStarts] at hk
  | cons p rest ih =>
      intro acc k hk hk2
      cases k with
      | zero => simp [attachStarts]
      | succ m =>
          simp only [attachStarts, List.get_cons_succ]
          exact ih (acc + p.period) m _ (by simpa using hk2)

/-- Rows of `attachStarts` have periods drawn from the property list. -/
lemma attachStarts_mem_period : ∀ (props : List CycleProps) (acc : ℤ) (r : CycleRow),
    r ∈ attachStarts acc props → ∃ p ∈ props, r.period = p.period := by
  intro props
  induction props with
  | nil => intro acc r hr; simp [attachStarts] at hr
  | cons p rest ih =>
      intro acc r hr
      simp only [attachStarts, List.mem_cons] at hr
      rcases hr with rfl | hr
      · exact ⟨p, List.mem_cons_self .., rfl⟩
      · obtain ⟨q, hq, hq2⟩ := ih (acc + p.period) r hr
        exact ⟨q, List.mem_cons_of_mem _ hq, hq2⟩

/-- Conversely, every property contributes a row with the same period. -/
lemma attachStarts_period_mem : ∀ (props : List CycleProps) (acc : ℤ) (p : CycleProps),
    p ∈ props → ∃ r ∈ attachStarts acc props, r.period = p.period := by
  intro props
  induction props with
  | nil => intro acc p hp; simp at hp
  | cons q rest ih =>
      intro acc p hp
      rcases List.mem_cons.mp hp with rfl | hp
      · exact ⟨_, List.mem_cons_self .., rfl⟩
      · obtain ⟨r, hr, hre⟩ := ih (acc + q.period) p hp
        exact ⟨r, List.mem_cons_of_mem _ hr, hre⟩

/-- **C8** counterexample — with overridden `period_mean = 3`, `period_std = 8`
and every normal draw equal to `-1`, every sampled period is `int(-5) = -5`;
the pre-truncation table exists (no error is raised for non-oscillating slots)
and its `start_sample` column is `[0, -5, -10, -15]`, which is strictly
decreasing, refuting the non-decreasing part of the claim. -/
theorem c8_counterexample :
    pipelineTable 2 1 1 (1/2) 0 0 { period_mean := some 3, period_std := some 8 } 5
        (fun _ => 1/2) (fun _ => -1) =
      .ok ([⟨false, -5, none, none, 0⟩, ⟨false, -5, none, none, -5⟩,
            ⟨false, -5, none, none, -10⟩, ⟨false, -5, none, none, -15⟩], 2) ∧
    ¬ ((0 : ℤ) ≤ -5) :=
  ⟨by decide, by decide⟩

/-- **C8** (amended) — in every pre-truncation table produced by the pipeline,
`start_sample[0] = 0` and `start_sample[k] = start_sample[k-1] + period[k-1]`
hold unconditionally; the column is non-decreasing **provided every stored
period is `≥ 0`**, which the sampler does not enforce for non-oscillating
slots (see the counterexample). -/
theorem c8_start_samples (nSeconds fs freq rdsym enterBurst leaveBurst : ℚ)
    (ov : FeatureOverrides) (nTries : ℕ) (drawsU drawsN : ℕ → ℚ)
    (table : List CycleRow) (nSamples : ℤ)
    (h : pipelineTable nSeconds fs freq rdsym enterBurst leaveBurst ov nTries drawsU drawsN =
      .ok (table, nSamples)) :
    (∀ h0 : 0 < table.length, (table.get ⟨0, h0⟩).startSample = 0) ∧
    (∀ (k : ℕ) (hk : k + 1 < table.length),
      (table.get ⟨k + 1, hk⟩).startSample =
        (table.get ⟨k, by omega⟩).startSample + (table.get ⟨k, by omega⟩).period) ∧
    ((∀ r ∈ table, 0 ≤ r.period) →
      ∀ (j k : ℕ) (hjk : j ≤ k) (hk : k < table.length),
        (table.get ⟨j, by omega⟩).startSample ≤ (table.get ⟨k, hk⟩).startSample) := by
  obtain ⟨-, props, flags, -, hp, htab, -⟩ :=
    pipelineTable_ok_inv nSeconds fs freq rdsym enterBurst leaveBurst ov nTries
      drawsU drawsN table nSamples h
  subst htab
  have hlen := attachStarts_length props 0
  refine ⟨?_, ?_, ?_⟩
  · intro h0
    rw [attachStarts_getElem_start]
    simp [propsPeriodSum]
  · intro k hk
    rw [attachStarts_getElem_start, attachStarts_getElem_start,
        attachStarts_getElem_period props 0 k (by omega) (by omega),
        propsPeriodSum_take_succ props k (by omega)]
    omega
  · intro hpos j k hjk hk
    rw [attachStarts_getElem_start, attachStarts_getElem_start]
    have hmono : propsPeriodSum (props.take j) ≤ propsPeriodSum (props.take k) := by
      apply propsPeriodSum_take_mono props _ j k hjk
      intro p hp2
      obtain ⟨r, hr, hre⟩ := attachStarts_period_mem props 0 p hp2
      have := hpos r hr
      omega
    omega

/-- Closed witness for `c8_start_samples`, on a concrete default-configuration
run (all periods `2`, starts `[0, 2, 4, 6]`). -/
theorem c8_start_samples_witness :
    (∀ h0 : 0 < ([⟨false, 2, none, none, 0⟩, ⟨false, 2, none, none, 2⟩, ⟨false, 2, none, none, 4⟩,
        ⟨false, 2, none, none, 6⟩] : List CycleRow).length,
      (([⟨false, 2, none, none, 0⟩, ⟨false, 2, none, none, 2⟩, ⟨false, 2, none, none, 4⟩,
        ⟨false, 2, none, none, 6⟩] : List CycleRow).get ⟨0, h0⟩).startSample = 0) ∧
    (∀ (k : ℕ) (hk : k + 1 < ([⟨false, 2, none, none, 0⟩, ⟨false, 2, none, none, 2⟩,
        ⟨false, 2, none, none, 4⟩, ⟨false, 2, none, none, 6⟩] : List CycleRow).length),
      (([⟨false, 2, none, none, 0⟩, ⟨false, 2, none, none, 2⟩, ⟨false, 2, none, none, 4⟩,
        ⟨false, 2, none, none, 6⟩] : List CycleRow).get ⟨k + 1, hk⟩).startSample =
        (([⟨false, 2, none, none, 0⟩, ⟨false, 2, none, none, 2⟩, ⟨false, 2, none, none, 4⟩,
          ⟨false, 2, none, none, 6⟩] : List CycleRow).get ⟨k, by omega⟩).startSample +
        (([⟨false, 2, none, none, 0⟩, ⟨false, 2, none, none, 2⟩, ⟨false, 2, none, none, 4⟩,
          ⟨false, 2, none, none, 6⟩] : List CycleRow).get ⟨k, by omega⟩).period) ∧
    ((∀ r ∈ ([⟨false, 2, none, none, 0⟩, ⟨false, 2, none, none, 2⟩, ⟨false, 2, none, none, 4⟩,
        ⟨false, 2, none, none, 6⟩] : List CycleRow), 0 ≤ r.period) →
      ∀ (j k : ℕ) (hjk : j ≤ k) (hk : k < ([⟨false, 2, none, none, 0⟩, ⟨false, 2, none, none, 2⟩,
          ⟨false, 2, none, none, 4⟩, ⟨false, 2, none, none, 6⟩] : List CycleRow).length),
        (([⟨false, 2, none, none, 0⟩, ⟨false, 2, none, none, 2⟩, ⟨false, 2, none, none, 4⟩,
          ⟨false, 2, none, none, 6⟩] : List CycleRow).get ⟨j, by omega⟩).startSample ≤
        (([⟨false, 2, none, none, 0⟩, ⟨false, 2, none, none, 2⟩, ⟨false, 2, none, none, 4⟩,
          ⟨false, 2, none, none, 6⟩] : List CycleRow).get ⟨k, hk⟩).startSample) :=
  c8_start_samples 1 4 2 (1/2) 0 0 {} 5 (fun _ => 1/2) (fun _ => 0) _ 4 (by decide)

/-! ## The waveform synthesizer: lengths and totality -/

lemma linspace_length (a b : ℚ) (n : ℕ) : (linspace a b n).length = n := by
  rw [linspace]
  by_cases h0 : n = 0
  · simp [h0]
  · by_cases h1 : n = 1
    · simp [h0, h1]
    · rw [if_neg h0, if_neg h1, List.length_map, List.length_range]

lemma pyInt_quarter_nonneg {p : ℤ} (h : 0 ≤ p) : 0 ≤ pyInt ((p : ℚ) / 4) := by
  have h4 : (0 : ℚ) ≤ (p : ℚ) / 4 := by positivity
  rw [pyInt, if_pos h4]
  exact Int.floor_nonneg.mpr h4

lemma pyInt_quarter_le {p : ℤ} (h : 0 ≤ p) : pyInt ((p : ℚ) / 4) ≤ p := by
  have h4 : (0 : ℚ) ≤ (p : ℚ) / 4 := by positivity
  rw [pyInt, if_pos h4]
  have hp : (0 : ℚ) ≤ (p : ℚ) := by exact_mod_cast h
  have : ((p : ℚ) / 4) ≤ (p : ℚ) := by
    rw [div_le_iff₀ (by norm_num)]
    nlinarith
  calc ⌊(p : ℚ) / 4⌋ ≤ ⌊(p : ℚ)⌋ := Int.floor_le_floor this
    _ = p := Int.floor_intCast p

lemma npRound_cases (q : ℚ) : npRound q = ⌊q⌋ ∨ npRound q = ⌊q⌋ + 1 := by
  rw [npRound]
  by_cases hh : q - ⌊q⌋ = 1/2
  · rw [if_pos hh]
    by_cases he : 2 ∣ ⌊q⌋
    · rw [if_pos he]; exact Or.inl rfl
    · rw [if_neg he]; exact Or.inr rfl
  · rw [if_neg hh, round_eq]
    have h1 : ⌊q⌋ ≤ ⌊q + 1/2⌋ := Int.floor_le_floor (by linarith)
    have h2 : ⌊q + 1/2⌋ ≤ ⌊q⌋ + 1 := by
      have := Int.lt_floor_add_one q
      have : q + 1/2 < (⌊q⌋ : ℚ) + 2 := by linarith
      have h3 : ⌊q + 1/2⌋ < ⌊q⌋ + 2 := by
        rw [Int.floor_lt]
        push_cast
        linarith
      omega
    omega

lemma npRound_nonneg {q : ℚ} (h : 0 ≤ q) : 0 ≤ npRound q := by
  have hf : 0 ≤ ⌊q⌋ := Int.floor_nonneg.mpr h
  rcases npRound_cases q with h1 | h1 <;> omega

lemma npRound_le {q : ℚ} {p : ℤ} (h : q < (p : ℚ)) : npRound q ≤ p := by
  have hf : ⌊q⌋ < p := Int.floor_lt.mpr h
  rcases npRound_cases q with h1 | h1 <;> omega

lemma zeroFill_ok {p : ℤ} (h : 0 ≤ p) :
    ∃ seg, zeroFill p = .ok seg ∧ (seg.length : ℤ) = p := by
  refine ⟨List.replicate p.toNat 0, ?_, ?_⟩
  · rw [zeroFill, if_neg (by omega)]
  · simp [Int.toNat_of_nonneg h]

lemma decaySegment_ok (cosPi : ℚ → ℚ) {p : ℤ} (last : ℚ) (h : 0 ≤ p) :
    ∃ seg, decaySegment cosPi p last = .ok seg ∧ (seg.length : ℤ) = p := by
  have hm0 := pyInt_quarter_nonneg h
  have hmp := pyInt_quarter_le h
  have heq : decaySegment cosPi p last =
      .ok ((linspace 0 (1/2) (pyInt ((p : ℚ) / 4)).toNat).map (fun x => cosPi x * last) ++
           List.replicate (p - pyInt ((p : ℚ) / 4)).toNat 0) := by
    simp only [decaySegment]
    rw [if_neg (by omega), if_neg (by omega)]
  refine ⟨_, heq, ?_⟩
  simp only [List.length_append, List.length_map, linspace_length, List.length_replicate]
  push_cast
  omega

lemma entryOverwrite_ok (cosPi : ℚ → ℚ) (sig : List ℚ) {p : ℤ} (amp : ℚ) (h : 0 ≤ p)
    (hcov : pyInt ((p : ℚ) / 4) - 1 ≤ (sig.length : ℤ)) :
    ∃ sig1, entryOverwrite cosPi sig p amp = .ok sig1 ∧ sig1.length = sig.length := by
  have hm0 := pyInt_quarter_nonneg h
  rw [entryOverwrite]
  rw [if_neg (by omega)]
  set riseT := ((linspace (-(1/2)) 0 (pyInt ((p : ℚ) / 4)).toNat).drop 1).map
    (fun x => cosPi x * amp) with hrise
  have hlenR : riseT.length = (pyInt ((p : ℚ) / 4)).toNat - 1 := by
    rw [hrise]
    simp [linspace_length]
  by_cases hre : riseT.isEmpty
  · rw [if_pos hre]
    exact ⟨sig, rfl, rfl⟩
  · rw [if_neg hre]
    have hcov2 : riseT.length ≤ sig.length := by omega
    rw [if_neg (by omega)]
    refine ⟨_, rfl, ?_⟩
    simp only [List.length_append, List.length_take]
    omega

lemma cycleBody_ok (cosPi : ℚ → ℚ) {p : ℤ} {s : ℚ} (hp : 0 < p) (hs0 : 0 < s) (hs1 : s < 1) :
    ∃ d ct, cycleBody cosPi p s = .ok (d, ct) ∧
      0 ≤ d ∧ d ≤ p ∧ (ct.length : ℤ) = p := by
  have hq0 : (0 : ℚ) ≤ (p : ℚ) * s := by positivity
  have hqp : (p : ℚ) * s < (p : ℚ) := by
    have hpq : (0 : ℚ) < (p : ℚ) := by exact_mod_cast hp
    nlinarith
  have hr0 : 0 ≤ npRound ((p : ℚ) * s) := npRound_nonneg hq0
  have hrp : npRound ((p : ℚ) * s) ≤ p := npRound_le hqp
  rw [cycleBody]
  rw [if_neg (by omega), if_neg (by omega)]
  refine ⟨_, _, rfl, by omega, by omega, ?_⟩
  simp only [List.length_map, List.length_append, List.length_drop, linspace_length]
  omega

lemma blendCycle_length (amp last : ℚ) (d : ℤ) (ct : List ℚ) :
    (blendCycle amp last d ct).length = ct.length := by
  simp only [blendCycle, List.length_append, List.length_map, List.length_take,
    List.length_drop]
  omega

lemma rowValidB_iff (r : CycleRow) :
    rowValidB r = true ↔ 0 < r.period ∧
      (r.isCycle = true →
        ∃ a s, r.amp = some a ∧ r.rdsym = some s ∧ 0 < a ∧ 0 < s ∧ s < 1) := by
  obtain ⟨ic, per, amp, rd, st⟩ := r
  cases ic <;> cases amp <;> cases rd
  all_goals simp [rowValidB]
  all_goals tauto

/-- A step on a valid row never fails and contributes exactly `period` samples;
the new flag is the row's `is_cycle`, and after an oscillating row the signal is
non-empty. -/
lemma simCycleStep_ok (cosPi : ℚ → ℚ) (st : SimState) (r : CycleRow)
    (hv : rowValidB r = true)
    (hlast : st.lastOsc = true → st.sig ≠ [])
    (hentry : r.isCycle = true → st.lastOsc = false →
      pyInt ((r.period : ℚ) / 4) - 1 ≤ (st.sig.length : ℤ)) :
    ∃ sig2, simCycleStep cosPi st r = .ok ⟨sig2, r.isCycle⟩ ∧
      (sig2.length : ℤ) = st.sig.length + r.period ∧
      (r.isCycle = true → sig2 ≠ []) := by
  obtain ⟨hper, hosc⟩ := (rowValidB_iff r).mp hv
  cases hic : r.isCycle with
  | false =>
      rw [simCycleStep, if_pos hic]
      cases hlo : st.lastOsc with
      | false =>
          obtain ⟨seg, hseg, hlen⟩ := zeroFill_ok (le_of_lt hper)
          rw [hseg]
          refine ⟨st.sig ++ seg, rfl, ?_, by simp⟩
          simp only [List.length_append]
          push_cast
          omega
      | true =>
          cases hgl : st.sig.getLast? with
          | none =>
              exact absurd (List.getLast?_eq_none_iff.mp hgl) (hlast hlo)
          | some last =>
              obtain ⟨seg, hseg, hlen⟩ := decaySegment_ok cosPi last (le_of_lt hper)
              rw [if_pos rfl]
              dsimp only []
              rw [hseg]
              refine ⟨st.sig ++ seg, rfl, ?_, by simp⟩
              simp only [List.length_append]
              push_cast
              omega
  | true =>
      obtain ⟨a, s, hamp, hrd, ha, hs0, hs1⟩ := hosc hic
      rw [simCycleStep, if_neg (by simp [hic]), hamp, hrd]
      dsimp only []
      obtain ⟨d, ct, hbody, hd0, hdp, hctlen⟩ := cycleBody_ok cosPi hper hs0 hs1
      cases hlo : st.lastOsc with
      | false =>
          obtain ⟨sig1, hentry1, hlen1⟩ :=
            entryOverwrite_ok cosPi st.sig a (le_of_lt hper) (hentry hic hlo)
          rw [if_neg (by simp), hentry1]
          dsimp only []
          rw [hbody]
          dsimp only []
          rw [if_neg (by simp)]
          refine ⟨sig1 ++ ct.map (fun x => x * a), rfl, ?_, ?_⟩
          · simp only [List.length_append, List.length_map, hlen1]
            omega
          · intro _
            have : 0 < (sig1 ++ ct.map (fun x => x * a)).length := by
              simp only [List.length_append, List.length_map]
              omega
            exact List.ne_nil_of_length_pos this
      | true =>
          cases hgl : st.sig.getLast? with
          | none =>
              exact absurd (List.getLast?_eq_none_iff.mp hgl) (hlast hlo)
          | some last =>
              rw [if_pos rfl]
              dsimp only []
              rw [hbody]
              dsimp only []
              rw [if_pos rfl]
              refine ⟨st.sig ++ blendCycle a last d ct, rfl, ?_, ?_⟩
              · simp only [List.length_append, blendCycle_length]
                omega
              · intro _
                have : 0 < (st.sig ++ blendCycle a last d ct).length := by
                  simp only [List.length_append, blendCycle_length]
                  omega
                exact List.ne_nil_of_length_pos this

/-- Processing valid rows from any state, with the burst-entry coverage
condition, always succeeds and appends exactly the sum of the periods. -/
lemma simCyclesFrom_ok (cosPi : ℚ → ℚ) :
    ∀ (rows : List CycleRow) (st : SimState),
      rows.all rowValidB = true →
      (st.lastOsc = true → st.sig ≠ []) →
      entryOkB st.lastOsc (st.sig.length : ℤ) rows = true →
      ∃ sig, simCyclesFrom cosPi rows st = .ok sig ∧
        (sig.length : ℤ) = st.sig.length + periodSum rows := by
  intro rows
  induction rows with
  | nil =>
      intro st hv hlast hentry
      exact ⟨st.sig, rfl, by simp [periodSum]⟩
  | cons r rest ih =>
      intro st hv hlast hentry
      have hvr : rowValidB r = true := by
        simp only [List.all_cons, Bool.and_eq_true] at hv
        exact hv.1
      have hvrest : rest.all rowValidB = true := by
        simp only [List.all_cons, Bool.and_eq_true] at hv
        exact hv.2
      simp only [entryOkB, Bool.and_eq_true] at hentry
      obtain ⟨hent1, hent2⟩ := hentry
      have hentry1 : r.isCycle = true → st.lastOsc = false →
          pyInt ((r.period : ℚ) / 4) - 1 ≤ (st.sig.length : ℤ) := by
        intro h1 h2
        rw [h1, h2] at hent1
        simpa using hent1
      obtain ⟨sig2, hstep, hlen2, hne2⟩ := simCycleStep_ok cosPi st r hvr hlast hentry1
      rw [simCyclesFrom, hstep]
      have hinv : (SimState.mk sig2 r.isCycle).lastOsc = true →
          (SimState.mk sig2 r.isCycle).sig ≠ [] := hne2
      have hentry2 : entryOkB (SimState.mk sig2 r.isCycle).lastOsc
          ((SimState.mk sig2 r.isCycle).sig.length : ℤ) rest = true := by
        have : ((sig2.length : ℤ)) = (st.sig.length : ℤ) + r.period := hlen2
        simpa [this] using hent2
      obtain ⟨sig, hrun, hlen⟩ := ih ⟨sig2, r.isCycle⟩ hvrest hinv hentry2
      refine ⟨sig, hrun, ?_⟩
      rw [hlen]
      simp only [periodSum]
      omega

/-- **C4** counterexample — a table whose single row passes the sampler's
validity predicate (`period = 8 > 0`, `amp = 1 > 0`, `rdsym = 1/2 ∈ (0,1)`)
still crashes the synthesizer: the row opens a burst with an empty signal, and
the rise segment of length `int(8/4) - 1 = 1` cannot be written over the last
samples of an empty signal (`ValueError` broadcast). -/
theorem c4_counterexample :
    simCycles (fun _ => 0) [⟨true, 8, some 1, some (1/2), 0⟩] = .error .broadcast ∧
    rowValidB ⟨true, 8, some 1, some (1/2), 0⟩ = true :=
  ⟨by decide, by decide⟩

/-- **C4** (amended) — the synthesizer is total on tables of valid rows
**provided** every burst entry finds at least `int(period/4) - 1` samples
already emitted (the coverage condition `entryOkB`); the pipeline establishes
this by always starting with a quiescent slot, but it is not implied by row
validity alone (see the counterexample). -/
theorem c4_totality (cosPi : ℚ → ℚ) (rows : List CycleRow)
    (hv : rows.all rowValidB = true)
    (hentry : entryOkB false 0 rows = true) :
    ∃ sig, simCycles cosPi rows = .ok sig := by
  obtain ⟨sig, hrun, -⟩ :=
    simCyclesFrom_ok cosPi rows ⟨[], false⟩ hv (by simp) (by simpa using hentry)
  exact ⟨sig, hrun⟩

/-- Closed witness for `c4_totality`: a quiescent row followed by a burst. -/
theorem c4_totality_witness :
    ∃ sig, simCycles (fun _ => 0)
      [⟨false, 2, none, none, 0⟩, ⟨true, 8, some 1, some (1/2), 2⟩] = .ok sig :=
  c4_totality (fun _ => 0) [⟨false, 2, none, none, 0⟩, ⟨true, 8, some 1, some (1/2), 2⟩]
    (by decide) (by decide)

/-- **C9** — on a table of valid rows satisfying the burst-entry coverage
condition, each row contributes exactly `period` new samples (the burst-entry
rise overwrites already-emitted samples instead of appending), so the
pre-truncation signal length is the sum of the `period` column. -/
theorem c9_pre_truncation_length (cosPi : ℚ → ℚ) (rows : List CycleRow)
    (hv : rows.all rowValidB = true)
    (hentry : entryOkB false 0 rows = true) :
    Except.map List.length (simCycles cosPi rows) = .ok (periodSum rows).toNat := by
  obtain ⟨sig, hrun, hlen⟩ :=
    simCyclesFrom_ok cosPi rows ⟨[], false⟩ hv (by simp) (by simpa using hentry)
  have hrun2 : simCycles cosPi rows = .ok sig := hrun
  rw [hrun2]
  simp only [Except.map]
  congr 1
  simp only [List.length_nil, Nat.cast_zero, zero_add] at hlen
  omega

/-- Closed witness for `c9_pre_truncation_length`. -/
theorem c9_pre_truncation_length_witness :
    Except.map List.length (simCycles (fun _ => 0)
      [⟨false, 3, none, none, 0⟩, ⟨true, 5, some 2, some (1/3), 3⟩]) =
    .ok (periodSum [⟨false, 3, none, none, 0⟩, ⟨true, 5, some 2, some (1/3), 3⟩]).toNat :=
  c9_pre_truncation_length (fun _ => 0)
    [⟨false, 3, none, none, 0⟩, ⟨true, 5, some 2, some (1/3), 3⟩] (by decide) (by decide)

/-! ## Output length of the full pipeline -/

lemma periodSum_nonneg (rows : List CycleRow) (h : ∀ r ∈ rows, 0 ≤ r.period) :
    0 ≤ periodSum rows := by
  induction rows with
  | nil => simp [periodSum]
  | cons r rest ih =>
      simp only [periodSum]
      have h1 := h r (List.mem_cons_self ..)
      have h2 := ih fun x hx => h x (List.mem_cons_of_mem _ hx)
      omega

lemma periodSum_attachStarts : ∀ (props : List CycleProps) (acc : ℤ),
    periodSum (attachStarts acc props) = propsPeriodSum props := by
  intro props
  induction props with
  | nil => intro acc; rfl
  | cons p rest ih => intro acc; simp [attachStarts, periodSum, propsPeriodSum, ih]

/-- The rows kept by the truncation filter cover `n` samples, whenever all
periods are positive and the whole table covers `n` samples. -/
lemma keptSum (n : ℤ) : ∀ (props : List CycleProps) (acc : ℤ),
    (∀ p ∈ props, 0 < p.period) →
    n ≤ acc + propsPeriodSum props →
    n ≤ acc + periodSum ((attachStarts acc props).filter fun r => r.startSample < n) := by
  intro props
  induction props with
  | nil =>
      intro acc hpos hcov
      simpa [attachStarts, periodSum, propsPeriodSum] using hcov
  | cons p rest ih =>
      intro acc hpos hcov
      by_cases hacc : acc < n
      · have hkept : (attachStarts acc (p :: rest)).filter (fun r => r.startSample < n) =
            (⟨p.isCycle, p.period, p.amp, p.rdsym, acc⟩ : CycleRow) ::
              (attachStarts (acc + p.period) rest).filter (fun r => r.startSample < n) := by
          simp only [attachStarts, List.filter_cons]
          rw [if_pos (by simpa using hacc)]
        rw [hkept]
        simp only [periodSum]
        have hcov2 : n ≤ (acc + p.period) + propsPeriodSum rest := by
          simp only [propsPeriodSum] at hcov
          omega
        have := ih (acc + p.period) (fun q hq => hpos q (List.mem_cons_of_mem _ hq)) hcov2
        omega
      · have hnn : 0 ≤ periodSum ((attachStarts acc (p :: rest)).filter
            fun r => r.startSample < n) := by
          apply periodSum_nonneg
          intro r hr
          obtain ⟨q, hq, hqe⟩ :=
            attachStarts_mem_period _ _ _ (List.mem_of_mem_filter hr)
          have := hpos q hq
          omega
        omega

/-- **C3** counterexample — a valid call (`n_seconds = 1 > 0`, `fs = 100 > 0`,
`freq = 10 > 0`, probabilities `0 ∈ [0,1]`, `rdsym = 1/2 ∈ (0,1)`) whose
`cycle_features` overrides `period_mean = 1`: the slot count is computed from
the default mean period `int(100/10) = 10` (20 slots), but every sampled cycle
has period `1`, so the pre-truncation signal has only 20 samples; the call
completes without raising and returns 20 samples, not
`floor(1 · 100) = 100`. -/
theorem c3_counterexample :
    simBurstyOscillationFeatures (fun _ => 0) 1 100 10 (1/2) 0 0
        { period_mean := some 1 } 5 (fun _ => 1/2) (fun _ => 0) =
      .ok (List.replicate 20 0) ∧
    ((List.replicate (20 : ℕ) (0 : ℚ)).length : ℤ) ≠ ⌊(1 : ℚ) * 100⌋ :=
  ⟨by decide, by decide⟩

/-- **C3** (amended) — whenever the table stage succeeds, every table row is
valid, the kept rows satisfy the burst-entry coverage condition, and the
table's total period covers `n_samples`, the simulation succeeds and the
returned signal has exactly `⌊n_seconds · fs⌋` samples.  Without the coverage
hypothesis the signal can be shorter (see the counterexample). -/
theorem c3_output_length (cosPi : ℚ → ℚ) (nSeconds fs freq rdsym enterBurst leaveBurst : ℚ)
    (ov : FeatureOverrides) (nTries : ℕ) (drawsU drawsN : ℕ → ℚ)
    (table : List CycleRow) (nSamples : ℤ)
    (hpos : 0 < nSeconds * fs)
    (ht : pipelineTable nSeconds fs freq rdsym enterBurst leaveBurst ov nTries drawsU drawsN =
      .ok (table, nSamples))
    (hv : table.all rowValidB = true)
    (hentry : entryOkB false 0 (table.filter fun r => r.startSample < nSamples) = true)
    (hcover : nSamples ≤ periodSum table) :
    ∃ sig, simBurstyOscillationFeatures cosPi nSeconds fs freq rdsym enterBurst leaveBurst
        ov nTries drawsU drawsN = .ok sig ∧ (sig.length : ℤ) = ⌊nSeconds * fs⌋ := by
  obtain ⟨hn, props, flags, -, -, htab, -⟩ :=
    pipelineTable_ok_inv nSeconds fs freq rdsym enterBurst leaveBurst ov nTries
      drawsU drawsN table nSamples ht
  have hvkept : (table.filter fun r => r.startSample < nSamples).all rowValidB = true := by
    rw [List.all_eq_true] at hv ⊢
    intro r hr
    exact hv r (List.mem_of_mem_filter hr)
  obtain ⟨sig1, hrun, hlen1⟩ :=
    simCyclesFrom_ok cosPi (table.filter fun r => r.startSample < nSamples) ⟨[], false⟩
      hvkept (by simp) (by simpa using hentry)
  have hkeptsum : nSamples ≤ periodSum (table.filter fun r => r.startSample < nSamples) := by
    have hppos : ∀ p ∈ props, 0 < p.period := by
      intro p hp
      obtain ⟨r, hr, hre⟩ := attachStarts_period_mem props 0 p hp
      rw [← htab] at hr
      have := ((rowValidB_iff r).mp ((List.all_eq_true.mp hv) r hr)).1
      omega
    have := keptSum nSamples props 0 hppos
      (by rw [htab, periodSum_attachStarts] at hcover; simpa using hcover)
    rw [htab]
    simpa using this
  have hs0 : (0 : ℚ) ≤ nSeconds * fs := le_of_lt hpos
  have hfloor : nSamples = ⌊nSeconds * fs⌋ := by rw [hn, pyInt, if_pos hs0]
  have hn0 : 0 ≤ nSamples := by
    rw [hfloor]
    exact Int.floor_nonneg.mpr hs0
  refine ⟨sig1.take nSamples.toNat, ?_, ?_⟩
  · rw [simBurstyOscillationFeatures, ht]
    dsimp only []
    have hrun2 : simCycles cosPi (table.filter fun r => r.startSample < nSamples) = .ok sig1 :=
      hrun
    rw [hrun2]
  · rw [List.length_take]
    have hlen0 : (sig1.length : ℤ) = periodSum (table.filter fun r => r.startSample < nSamples) := by
      simpa using hlen1
    rw [← hfloor]
    omega

/-- Closed witness for `c3_output_length`: the default configuration with
`n_seconds = 1`, `fs = 4`, `freq = 2` yields exactly `⌊1 · 4⌋ = 4` samples. -/
theorem c3_output_length_witness :
    ∃ sig, simBurstyOscillationFeatures (fun _ => 0) 1 4 2 (1/2) 0 0 {} 5
        (fun _ => 1/2) (fun _ => 0) = .ok sig ∧ (sig.length : ℤ) = ⌊(1 : ℚ) * 4⌋ :=
  c3_output_length (fun _ => 0) 1 4 2 (1/2) 0 0 {} 5 (fun _ => 1/2) (fun _ => 0)
    [⟨false, 2, none, none, 0⟩, ⟨false, 2, none, none, 2⟩, ⟨false, 2, none, none, 4⟩,
     ⟨false, 2, none, none, 6⟩] 4
    (by norm_num) (by decide) (by decide) (by decide) (by decide)

end NeuroDSP
